import Mathlib

/-!
Verification of the `slashed` slash-command framework against its
natural-language specification.

The development shallowly embeds the shell executor
(`src/slashed/shell_executor.py`), the registration logic of the command
store (`src/slashed/store.py`) and the argument binder described by the
specification.  Python strings become `String`, Python `int` becomes `Int`
(exit codes may be negative), Python dicts keyed by strings become
insertion-ordered association lists with overwrite-on-existing-key
semantics, and raised exceptions become explicit `Except` values.
-/

namespace Slashed

/-- The `CommandResult` value type (stdout, stderr, exit code) with the
Python dataclass defaults `""`, `""`, `0`. -/
structure CommandResult where
  stdout : String := ""
  stderr : String := ""
  exit_code : Int := 0
deriving DecidableEq

/-- The `CommandContext` record.  The `output`, `data`, `command_store` and
`metadata` fields are opaque type parameters: the executor only passes them
around by reference, so equality of these fields in the embedding models
reference identity in the Python code. -/
structure CommandContext (O D S M : Type) where
  output : O
  data : D
  command_store : S
  metadata : M
  stdin : String := ""

/-- Modelled from the spec: the exception hierarchy of `slashed.exceptions`
(the file is not under `src/`; only its importers are).  `CommandError` is
the domain error type of §7; `ExitCommandError` is the special
"exit requested" kind.  That `ExitCommandError` is itself a `CommandError`
is forced by the code that is under `src/`: `store.execute_command` re-raises
`CommandError` unchanged and the textual adapter catches `ExitCommandError`
out of that call before catching `CommandError`.  `otherError` stands for
any non-domain exception; the carried string is the Python `str(e)`. -/
inductive SlashedError where
  | commandError (msg : String)
  | exitCommandError (msg : String)
  | otherError (msg : String)
deriving DecidableEq

/-- `isinstance(e, CommandError)`: true for `CommandError` and its subclass
`ExitCommandError`. -/
def SlashedError.isCommandError : SlashedError → Bool
  | .commandError _ => true
  | .exitCommandError _ => true
  | .otherError _ => false

/-- The Python `str(e)` of an exception: the carried message. -/
def SlashedError.message : SlashedError → String
  | .commandError m => m
  | .exitCommandError m => m
  | .otherError m => m

/-- A Python value as it can be returned from a handler, discriminated the
way `_normalize_result` discriminates with `isinstance`.  `pybool` models a
Python `bool`, which is a subclass of `int` with `int(True) = 1` and
`int(False) = 0`; `pyother` carries the `str(value)` rendering of any value
of the remaining types. -/
inductive PyValue where
  | pynone
  | pyresult (r : CommandResult)
  | pystr (s : String)
  | pyint (n : Int)
  | pybool (b : Bool)
  | pyother (repr : String)
deriving DecidableEq

/-- `_normalize_result` from `shell_executor.py` (lines 279-297): the
`isinstance` chain None / CommandResult / str / int / catch-all.  A `bool`
value satisfies `isinstance(result, int)` and therefore takes the integer
branch with its integer value. -/
def normalizeResult : PyValue → CommandResult
  | .pynone => {}
  | .pyresult r => r
  | .pystr s => { stdout := s }
  | .pyint n => { exit_code := n }
  | .pybool b => { exit_code := if b then 1 else 0 }
  | .pyother s => { stdout := s }

/-- Insertion into a Python `dict` modelled as an association list: an
existing key keeps its position and gets the new value, a new key is
appended at the end. -/
def dictInsert (d : List (String × String)) (k v : String) :
    List (String × String) :=
  if (d.lookup k).isSome then
    d.map fun p => if p.1 == k then (k, v) else p
  else
    d ++ [(k, v)]

/-- Python `s.startswith(pre)`: `pre` is a prefix of the character
sequence of `s`. -/
def pyStartsWith (s pre : String) : Bool :=
  pre.toList.isPrefixOf s.toList

/-- Python `s[n:]`: drop the first `n` characters. -/
def pyDrop (s : String) (n : Nat) : String :=
  ⟨s.toList.drop n⟩

/-- `arg.startswith("-") and len(arg) == 2 and arg[1].isalpha()` from
`shell_executor.py` line 161 (the flags in question are ASCII, so Lean's
ASCII `Char.isAlpha` matches Python's `isalpha` on them). -/
def isShortFlagToken (arg : String) : Bool :=
  pyStartsWith arg "-" && arg.length == 2 &&
    (match arg.toList with
     | [_, c] => c.isAlpha
     | _ => false)

/-- The argument re-splitting loop of `ShellExecutor._execute_command`
(`shell_executor.py` lines 152-171), recursing on the remaining raw
arguments with the `args` / `kwargs` accumulators.  `i + 1 < len(raw_args)`
becomes "the remaining list has a second element". -/
def splitArgsGo (args : List String) (kwargs : List (String × String)) :
    List String → List String × List (String × String)
  | [] => (args, kwargs)
  | arg :: rest =>
    if pyStartsWith arg "--" && !rest.isEmpty then
      -- Long flag: --name value (the next token exists and is consumed)
      match rest with
      | v :: rest2 => splitArgsGo args (dictInsert kwargs (pyDrop arg 2) v) rest2
      | [] => (args, kwargs)
    else if isShortFlagToken arg then
      -- Short flag: -x value, or positional when no token follows
      match rest with
      | v :: rest2 => splitArgsGo args (dictInsert kwargs (pyDrop arg 1) v) rest2
      | [] => (args ++ [arg], kwargs)
    else
      splitArgsGo (args ++ [arg]) kwargs rest

/-- `raw_args` → `(args, kwargs)` as computed by
`ShellExecutor._execute_command`. -/
def splitArgs (rawArgs : List String) : List String × List (String × String) :=
  splitArgsGo [] [] rawArgs

/-- A registered command as `CommandStore.register_command` observes it:
its `name` and the result of its `is_available()` predicate. -/
structure RegCommand where
  name : String
  available : Bool
deriving DecidableEq

/-- `CommandStore.register_command` (`store.py` lines 127-147) acting on the
`_commands` mapping, modelled as an insertion-ordered association list.
The returned `Option String` is the raised `ValueError` message (`none`
when nothing is raised); the returned list is the mapping afterwards.  An
unavailable command returns early, before the collision check. -/
def registerCommand (commands : List (String × RegCommand)) (c : RegCommand) :
    Option String × List (String × RegCommand) :=
  if !c.available then
    (none, commands)
  else if (commands.lookup c.name).isSome then
    (some ("Command \x27" ++ c.name ++ "\x27 already registered"), commands)
  else
    (none, commands ++ [(c.name, c)])

/-- The `try`/`except` policy of `CommandStore.execute_command`
(`store.py` lines 212-232), parametrised by the outcome of the body:
a `CommandError` (including its `ExitCommandError` subclass) is re-raised
unchanged, any other exception is wrapped into
`CommandError("Command execution failed: ...")`. -/
def storeExecuteCatch (body : Except SlashedError Unit) :
    Except SlashedError Unit :=
  match body with
  | .ok u => .ok u
  | .error e =>
    if e.isCommandError then .error e
    else .error (.commandError ("Command execution failed: " ++ e.message))

/-- A part of a bashlex `command` node, as `_execute_command` discriminates
it: a `word` (carrying its text), a `redirect` or an `assignment` (both
silently skipped), or any other kind (also skipped by the `if`/`elif`
chain). -/
inductive WordPart where
  | word (w : String)
  | redirect
  | assignment
  | otherKind
deriving DecidableEq

/-- A part of a bashlex `pipeline` node: a `command` node (its word parts)
or anything else (the `|` operator nodes), which `_execute_pipeline`
filters out. -/
inductive PipePart where
  | command (parts : List WordPart)
  | otherKind
deriving DecidableEq

/-- A part of a bashlex `list` node as `_execute_list` discriminates it:
an `operator` (carrying its token such as "&&"), a `command`, a `pipeline`,
or any other kind (silently ignored by the `if`/`elif` chain). -/
inductive ListPart where
  | operator (op : String)
  | command (parts : List WordPart)
  | pipeline (parts : List PipePart)
  | otherKind
deriving DecidableEq

/-- Ghost instrumentation: a record of one handler call made by the
executor — the command name, the split arguments, and the `stdin` of the
context the handler ran with.  The trace lists invocations in execution
order; it lets theorems state that a handler was (or was not) invoked. -/
structure Invocation where
  name : String
  args : List String
  kwargs : List (String × String)
  stdin : String
deriving DecidableEq

/-- A registered command's `execute(ctx, args, kwargs)` behaviour: it either
returns a Python value or raises. -/
def Handler (O D S M : Type) : Type :=
  CommandContext O D S M → List String → List (String × String) →
    Except SlashedError PyValue

/-- The `CommandStore.get_command` view the executor consumes: a partial
map from command names to handlers. -/
def ExecStore (O D S M : Type) : Type :=
  String → Option (Handler O D S M)

/-- `dataclasses.replace(ctx, stdin=s)` from `_execute_pipeline` line 206:
a shallow copy in which only `stdin` is replaced. -/
def replaceStdin {O D S M : Type} (ctx : CommandContext O D S M)
    (s : String) : CommandContext O D S M :=
  { ctx with stdin := s }

/-- The word extraction loop of `_execute_command` (lines 128-137): collect
the text of `word` parts, skip everything else. -/
def wordsOf (parts : List WordPart) : List String :=
  parts.filterMap fun p =>
    match p with
    | .word w => some w
    | _ => none

variable {O D S M : Type}

/-- `ShellExecutor._execute_command` (lines 113-180): extract words, return
the default result when there are none, look the command up (unknown name
gives exit code 127 before any argument splitting), split the raw arguments,
run the handler, normalize its return value, and turn a raised
`CommandError` into `(str(e), 1)` and any other exception into
`("Error: ...", 1)`.  The second component is the invocation trace. -/
def executeCommandNode (store : ExecStore O D S M) (parts : List WordPart)
    (ctx : CommandContext O D S M) : CommandResult × List Invocation :=
  match wordsOf parts with
  | [] => ({}, [])
  | cmdName :: rawArgs =>
    match store cmdName with
    | none => ({ stderr := "Unknown command: " ++ cmdName, exit_code := 127 }, [])
    | some handler =>
      let split := splitArgs rawArgs
      let inv : Invocation := ⟨cmdName, split.1, split.2, ctx.stdin⟩
      match handler ctx split.1 split.2 with
      | .ok v => (normalizeResult v, [inv])
      | .error e =>
        if e.isCommandError then
          ({ stderr := e.message, exit_code := 1 }, [inv])
        else
          ({ stderr := "Error: " ++ e.message, exit_code := 1 }, [inv])

/-- The command filter of `_execute_pipeline` line 197: keep the `command`
parts, drop everything else. -/
def pipeCommands (parts : List PipePart) : List (List WordPart) :=
  parts.filterMap fun p =>
    match p with
    | .command ws => some ws
    | .otherKind => none

/-- The pipeline loop of `_execute_pipeline` (lines 201-218) over the
non-empty command list, carrying `current_stdin`: each stage runs on
`replace(ctx, stdin=current_stdin)`; after a non-final stage its `stdout`
becomes the next `current_stdin`; the last stage's result is returned.
Traces accumulate in execution order. -/
def executePipelineGo (store : ExecStore O D S M)
    (ctx : CommandContext O D S M) :
    List (List WordPart) → String → CommandResult × List Invocation
  | [], _ => ({}, [])
  | [c], stdin => executeCommandNode store c (replaceStdin ctx stdin)
  | c :: c2 :: rest, stdin =>
    let p := executeCommandNode store c (replaceStdin ctx stdin)
    let q := executePipelineGo store ctx (c2 :: rest) p.1.stdout
    (q.1, p.2 ++ q.2)

/-- `ShellExecutor._execute_pipeline` (lines 182-218): filter the command
parts, return the default result when there are none, otherwise run the
threading loop starting from the incoming context's `stdin`. -/
def executePipelineNode (store : ExecStore O D S M) (parts : List PipePart)
    (ctx : CommandContext O D S M) : CommandResult × List Invocation :=
  match pipeCommands parts with
  | [] => ({}, [])
  | c :: rest => executePipelineGo store ctx (c :: rest) ctx.stdin

/-- The loop body condition of `_execute_list` (lines 249-255):
`should_execute` starts `True` and is narrowed only by a pending `"&&"`
(previous exit code must be 0) or `"||"` (previous exit code must be
non-zero). -/
def listShouldRun (pendingOp : Option String) (prev : CommandResult) : Bool :=
  if pendingOp = some "&&" then prev.exit_code == 0
  else if pendingOp = some "||" then !(prev.exit_code == 0)
  else true

/-- The loop of `ShellExecutor._execute_list` (lines 237-276): operator
parts set `pending_operator`; command/pipeline parts run when
`listShouldRun` holds, appending non-empty stdout/stderr to the
accumulator lists and resetting `pending_operator` (the reset happens even
for skipped parts); any other part kind is ignored.  At the end the
accumulators are joined and the exit code of the last executed part (the
tracked `result`) is reported. -/
def executeListGo (store : ExecStore O D S M) (ctx : CommandContext O D S M) :
    List ListPart → Option String → CommandResult → List String →
    List String → List Invocation → CommandResult × List Invocation
  | [], _, result, accOut, accErr, tr =>
    ({ stdout := String.join accOut, stderr := String.join accErr,
       exit_code := result.exit_code }, tr)
  | .operator op :: rest, _, result, accOut, accErr, tr =>
    executeListGo store ctx rest (some op) result accOut accErr tr
  | .command ws :: rest, pendingOp, result, accOut, accErr, tr =>
    if listShouldRun pendingOp result then
      let p := executeCommandNode store ws ctx
      executeListGo store ctx rest none p.1
        (if p.1.stdout ≠ "" then accOut ++ [p.1.stdout] else accOut)
        (if p.1.stderr ≠ "" then accErr ++ [p.1.stderr] else accErr)
        (tr ++ p.2)
    else
      executeListGo store ctx rest none result accOut accErr tr
  | .pipeline ps :: rest, pendingOp, result, accOut, accErr, tr =>
    if listShouldRun pendingOp result then
      let p := executePipelineNode store ps ctx
      executeListGo store ctx rest none p.1
        (if p.1.stdout ≠ "" then accOut ++ [p.1.stdout] else accOut)
        (if p.1.stderr ≠ "" then accErr ++ [p.1.stderr] else accErr)
        (tr ++ p.2)
    else
      executeListGo store ctx rest none result accOut accErr tr
  | .otherKind :: rest, pendingOp, result, accOut, accErr, tr =>
    executeListGo store ctx rest pendingOp result accOut accErr tr

/-- `ShellExecutor._execute_list` entry point: empty accumulators, no
pending operator, and the initial `result = CommandResult()`. -/
def executeListNode (store : ExecStore O D S M) (parts : List ListPart)
    (ctx : CommandContext O D S M) : CommandResult × List Invocation :=
  executeListGo store ctx parts none {} [] [] []

/-- Claim-side description of pipeline evaluation (C2): the stages in
order, each with the result it produces; stage 1 receives the supplied
`stdin`, every later stage receives the immediately preceding stage's
`stdout`. -/
def stageResults (store : ExecStore O D S M) (ctx : CommandContext O D S M) :
    List (List WordPart) → String → List (CommandResult × List Invocation)
  | [], _ => []
  | c :: rest, stdin =>
    let p := executeCommandNode store c (replaceStdin ctx stdin)
    p :: stageResults store ctx rest p.1.stdout

/-- Claim-side selection of a pipeline's result: exactly the last stage's
result (the default result when there are no stages). -/
def lastStage : List (CommandResult × List Invocation) → CommandResult
  | [] => {}
  | [p] => p.1
  | _ :: p :: rest => lastStage (p :: rest)

/-- Claim-side execution condition for a list part (C1): the pending
operator is `&&` and the previous exit code is 0, or it is `||` and the
previous exit code is non-zero, or it is `;`, or there is no pending
operator. -/
def claimExecutes (pendingOp : Option String) (prev : Int) : Bool :=
  (pendingOp == some "&&" && prev == 0) ||
  (pendingOp == some "||" && !(prev == 0)) ||
  pendingOp == some ";" || pendingOp.isNone

/-- Claim-side list evaluation (C1): the results of exactly the executed
parts, in execution order.  `prev` is the exit code of the last executed
part so far (initially 0); operator parts update the pending operator,
command/pipeline parts run when `claimExecutes` holds and reset it, other
part kinds are ignored. -/
def executedResults (store : ExecStore O D S M)
    (ctx : CommandContext O D S M) :
    List ListPart → Option String → Int → List (CommandResult × List Invocation)
  | [], _, _ => []
  | .operator op :: rest, _, prev =>
    executedResults store ctx rest (some op) prev
  | .command ws :: rest, pendingOp, prev =>
    if claimExecutes pendingOp prev then
      let p := executeCommandNode store ws ctx
      p :: executedResults store ctx rest none p.1.exit_code
    else
      executedResults store ctx rest none prev
  | .pipeline ps :: rest, pendingOp, prev =>
    if claimExecutes pendingOp prev then
      let p := executePipelineNode store ps ctx
      p :: executedResults store ctx rest none p.1.exit_code
    else
      executedResults store ctx rest none prev
  | .otherKind :: rest, pendingOp, prev =>
    executedResults store ctx rest pendingOp prev

/-- The exit code of the last element of an executed-results list, or the
supplied default when no part executed. -/
def lastExit : List (CommandResult × List Invocation) → Int → Int
  | [], d => d
  | p :: rest, _ => lastExit rest p.1.exit_code

/-- Claim-side packaging of a list node's outcome (C1): stdout and stderr
are the concatenations, in execution order, of every executed part's
stdout and stderr; the exit code is the last executed part's (0 when
nothing executed); the trace is the executed parts' traces in order. -/
def claimedListResult (store : ExecStore O D S M)
    (ctx : CommandContext O D S M) (parts : List ListPart) :
    CommandResult × List Invocation :=
  let ex := executedResults store ctx parts none 0
  ( { stdout := String.join (ex.map fun p => p.1.stdout),
      stderr := String.join (ex.map fun p => p.1.stderr),
      exit_code := lastExit ex 0 },
    (ex.map fun p => p.2).flatten )

/-- The operator tokens claim C1 quantifies over: a list part is in scope
when it is not an operator or its operator is one of `&&`, `||`, `;`. -/
def opAllowed : ListPart → Bool
  | .operator op => op == "&&" || op == "||" || op == ";"
  | _ => true

/-- A pending operator in scope of claim C1: absent, or one of the three
spec operators. -/
def pendingAllowed : Option String → Bool
  | none => true
  | some op => op == "&&" || op == "||" || op == ";"

/-- Modelled from the spec: the parameter kinds of §3 (`parse_args` and the
parameter-descriptor machinery live in `base.py`, which is not under
`src/`; only its tests and importers are). -/
inductive ParamKind where
  | normal
  | varPositional
  | varKeyword
  | keywordOnly
deriving DecidableEq

/-- Modelled from the spec: a parameter's declared scalar type (§4.2 step
8); `untyped` also covers string-typed parameters, which pass through
unchanged. -/
inductive PType where
  | untyped
  | tstr
  | tint
  | tfloat
  | tbool
deriving DecidableEq

/-- Modelled from the spec: a value in the binder's output — the injected
context, a pass-through string, or a coerced int / bool / float (the float
is carried as its validated literal text, since only parse success or
failure matters to the binder's contract). -/
inductive BoundVal where
  | ctxVal
  | vstr (s : String)
  | vint (n : Int)
  | vbool (b : Bool)
  | vfloat (lit : String)
deriving DecidableEq

/-- Modelled from the spec: the parameter descriptor of §3 —
`{name, kind, declared_type, has_default, default_value, shorthand}`. -/
structure ParamSpec where
  name : String
  kind : ParamKind
  ptype : PType := .untyped
  hasDefault : Bool := false
  dflt : BoundVal := .vstr ""
  shorthand : Option String := none
deriving DecidableEq

/-- Modelled from the spec: a handler signature as the binder sees it —
whether the leading parameter is the context-injection slot, and the
remaining declared parameters in order. -/
structure ArgSig where
  hasCtx : Bool
  params : List ParamSpec

/-- A decimal numeral with optional sign and optional fractional part:
the shape accepted by standard float parsing for the binder's purposes. -/
def isFloatLit (s : String) : Bool :=
  let t := if pyStartsWith s "-" || pyStartsWith s "+" then pyDrop s 1 else s
  match t.splitOn "." with
  | [a] => !a.isEmpty && a.all Char.isDigit
  | [a, b] => !a.isEmpty && a.all Char.isDigit && b.all Char.isDigit
  | _ => false

/-- Modelled from the spec: type coercion (§4.2 step 8) — int and float by
numeric parsing, bool by case-insensitive match against
true/1/yes and false/0/no, untyped and string pass through; failure is a
CommandError whose message includes the offending value and target type. -/
def coerceValue (t : PType) (s : String) : Except String BoundVal :=
  match t with
  | .untyped => .ok (.vstr s)
  | .tstr => .ok (.vstr s)
  | .tint =>
    match s.toInt? with
    | some n => .ok (.vint n)
    | none => .error ("invalid value " ++ s ++ " for type int")
  | .tfloat =>
    if isFloatLit s then .ok (.vfloat s)
    else .error ("invalid value " ++ s ++ " for type float")
  | .tbool =>
    if s.toLower == "true" || s.toLower == "1" || s.toLower == "yes" then
      .ok (.vbool true)
    else if s.toLower == "false" || s.toLower == "0" || s.toLower == "no" then
      .ok (.vbool false)
    else .error ("invalid value " ++ s ++ " for type bool")

/-- Modelled from the spec: shorthand resolution (§4.2 step 3) — for each
declared parameter carrying a shorthand character whose key occurs in the
keyword map, fail when the full name is also present, otherwise rewrite
the shorthand key to the full name. -/
def shorthandResolve : List ParamSpec → List (String × String) →
    Except String (List (String × String))
  | [], kw => .ok kw
  | p :: rest, kw =>
    match p.shorthand with
    | none => shorthandResolve rest kw
    | some c =>
      match kw.lookup c with
      | none => shorthandResolve rest kw
      | some v =>
        if (kw.lookup p.name).isSome then
          .error ("argument provided both as \x27-" ++ c ++
            "\x27 and \x27--" ++ p.name ++ "\x27")
        else
          shorthandResolve rest ((kw.filter fun q => q.1 != c) ++ [(p.name, v)])

/-- Modelled from the spec: coercion of a token list against one declared
element type (§4.2 step 8), failing on the first bad token. -/
def coerceAll (t : PType) : List String → Except String (List BoundVal)
  | [] => .ok []
  | s :: rest =>
    match coerceValue t s with
    | .error e => .error e
    | .ok b =>
      match coerceAll t rest with
      | .error e => .error e
      | .ok bs => .ok (b :: bs)

/-- Modelled from the spec: coercion of the keyword entries routed to the
var-keyword slot against its declared element type (§4.2 step 8). -/
def coerceRouted (t : PType) : List (String × String) →
    Except String (List (String × BoundVal))
  | [] => .ok []
  | q :: rest =>
    match coerceValue t q.2 with
    | .error e => .error e
    | .ok b =>
      match coerceRouted t rest with
      | .error e => .error e
      | .ok bs => .ok ((q.1, b) :: bs)

/-- Modelled from the spec: positional output for the normal parameters in
declared order (§4.2 steps 5 and 8 and the output-ordering rule): each
target takes the incoming positional token at its position, else its
keyword value, else its default; supplied tokens are coerced. -/
def bindNormals (targets : List ParamSpec) (pos : List String)
    (kwargs : List (String × String)) : Except String (List BoundVal) :=
  match targets, pos with
  | [], _ => .ok []
  | p :: ts, v :: vs =>
    match coerceValue p.ptype v with
    | .error e => .error e
    | .ok b =>
      match bindNormals ts vs kwargs with
      | .error e => .error e
      | .ok rest => .ok (b :: rest)
  | p :: ts, [] =>
    match
      (match kwargs.lookup p.name with
       | some v => coerceValue p.ptype v
       | none => .ok p.dflt) with
    | .error e => .error e
    | .ok b =>
      match bindNormals ts [] kwargs with
      | .error e => .error e
      | .ok rest => .ok (b :: rest)

/-- Modelled from the spec: keyword output for the keyword-only parameters
(§4.2 steps 6 and 8): each one that was supplied contributes its coerced
value under its name. -/
def bindKwOnly (ps : List ParamSpec) (kwargs : List (String × String)) :
    Except String (List (String × BoundVal)) :=
  match ps with
  | [] => .ok []
  | p :: rest =>
    match kwargs.lookup p.name with
    | some v =>
      match coerceValue p.ptype v with
      | .error e => .error e
      | .ok b =>
        match bindKwOnly rest kwargs with
        | .error e => .error e
        | .ok tail => .ok ((p.name, b) :: tail)
    | none => bindKwOnly rest kwargs

/-- Modelled from the spec: `parse_args` (§4.2, the SignatureBinder of
`base.py`, which is not under `src/`).  Steps in order: shorthand
resolution; partition into required/optional normals, at most one
var-positional, keyword-only and at most one var-keyword; the
positional/keyword conflict check over the positional-by-position mapping
(keyword-only parameters are not part of that mapping); positional
consumption with overflow into the var-positional slot or a
"too many positional arguments" failure; keyword consumption routing
unrecognised keys to the var-keyword slot or failing with
"unknown argument"; the collected required check; coercion.  The output is
`(call positional values, call keyword values)`. -/
def parse_args (sig : ArgSig) (positional : List String)
    (keyword : List (String × String)) :
    Except String (List BoundVal × List (String × BoundVal)) :=
  match shorthandResolve sig.params keyword with
  | .error e => .error e
  | .ok kwargs =>
    let requiredNormal := sig.params.filter fun p => p.kind == .normal && !p.hasDefault
    let optionalNormal := sig.params.filter fun p => p.kind == .normal && p.hasDefault
    let posTargets := requiredNormal ++ optionalNormal
    let varPos := sig.params.find? fun p => p.kind == .varPositional
    let kwOnly := sig.params.filter fun p => p.kind == .keywordOnly
    let varKw := sig.params.find? fun p => p.kind == .varKeyword
    let posFilled := (posTargets.map fun p => p.name).take positional.length
    let conflicts := posFilled.filter fun n => (kwargs.lookup n).isSome
    if conflicts ≠ [] then
      .error ("arguments provided both positionally and as keywords: " ++
        String.intercalate ", " conflicts)
    else
      let extraPos := positional.drop posTargets.length
      if extraPos ≠ [] ∧ varPos = none then
        .error "too many positional arguments"
      else
        let declaredNames := (posTargets ++ kwOnly).map fun p => p.name
        let routed := kwargs.filter fun q => !(declaredNames.contains q.1)
        if varKw = none ∧ routed ≠ [] then
          .error ("unknown argument: " ++ ((routed.head?.map Prod.fst).getD ""))
        else
          let missingReq :=
            (requiredNormal.drop positional.length).filter fun p =>
              (kwargs.lookup p.name).isNone
          let missingKw := kwOnly.filter fun p =>
            !p.hasDefault && (kwargs.lookup p.name).isNone
          let missing := missingReq ++ missingKw
          if missing ≠ [] then
            .error ("missing required arguments: " ++
              String.intercalate ", " (missing.map fun p => p.name))
          else
            match bindNormals posTargets positional kwargs with
            | .error e => .error e
            | .ok normalVals =>
              match
                (match varPos with
                 | some vp => coerceAll vp.ptype extraPos
                 | none => .ok []) with
              | .error e => .error e
              | .ok varVals =>
                match bindKwOnly kwOnly kwargs with
                | .error e => .error e
                | .ok kwOnlyOut =>
                  match
                    (match varKw with
                     | some vk => coerceRouted vk.ptype routed
                     | none => .ok []) with
                  | .error e => .error e
                  | .ok routedOut =>
                    .ok ((if sig.hasCtx then [BoundVal.ctxVal] else []) ++
                          normalVals ++ varVals,
                         kwOnlyOut ++ routedOut)

/-- A small concrete command store over trivial context payloads, used to
instantiate the general theorems: `echo` joins its positional arguments,
`cat` returns its stdin, `false` returns the integer 1, and `bye` raises
the exit-requested error. -/
def demoStore : ExecStore Unit Unit Unit Unit := fun n =>
  if n == "echo" then
    some fun _ args _ => .ok (.pystr (String.intercalate " " args ++ "\n"))
  else if n == "cat" then
    some fun c _ _ => .ok (.pystr c.stdin)
  else if n == "false" then
    some fun _ _ _ => .ok (.pyint 1)
  else if n == "bye" then
    some fun _ _ _ => .error (.exitCommandError "bye now")
  else
    none

/-- A concrete context for instantiating the general theorems. -/
def demoCtx : CommandContext Unit Unit Unit Unit := ⟨(), (), (), (), "seed"⟩

/-! ## Shared helper lemmas -/

theorem str_empty_append (s : String) : "" ++ s = s := by
  apply String.ext
  simp [String.data_append]

theorem str_append_empty (s : String) : s ++ "" = s := by
  apply String.ext
  simp [String.data_append]

theorem str_append_assoc (a b c : String) : a ++ b ++ c = a ++ (b ++ c) := by
  apply String.ext
  simp [String.data_append]

theorem str_join_cons (s : String) (l : List String) :
    String.join (s :: l) = s ++ String.join l := by
  apply String.ext
  simp [String.join_eq, String.data_append]

theorem str_join_append (l1 l2 : List String) :
    String.join (l1 ++ l2) = String.join l1 ++ String.join l2 := by
  apply String.ext
  simp [String.join_eq, String.data_append]

theorem str_join_nil : String.join ([] : List String) = "" := rfl

/-! ## Claim theorems -/

variable {O D S M : Type}

/-- Claim C5: `_normalize_result` maps `None` to the default
`CommandResult` (empty stdout and stderr, exit code 0), passes a
`CommandResult` through unchanged, maps a string to `stdout`, an integer
to `exit_code`, and any other value to `stdout = str(value)`. -/
theorem normalize_result_spec (r : CommandResult) (s : String) (n : Int)
    (o : String) :
    normalizeResult .pynone = { stdout := "", stderr := "", exit_code := 0 } ∧
    normalizeResult (.pyresult r) = r ∧
    normalizeResult (.pystr s) = { stdout := s } ∧
    normalizeResult (.pyint n) = { exit_code := n } ∧
    normalizeResult (.pyother o) = { stdout := o } :=
  ⟨rfl, rfl, rfl, rfl, rfl⟩

/-- Claim C10: a Python boolean takes the integer branch of
`_normalize_result` (bool is a subclass of int), so `True` becomes
`CommandResult(exit_code=1)` with empty stdout — a failure result — and
`False` becomes `CommandResult(exit_code=0)` — a success; neither reaches
the catch-all string branch. -/
theorem normalize_bool_integer_branch :
    normalizeResult (.pybool true) = { stdout := "", stderr := "", exit_code := 1 } ∧
    normalizeResult (.pybool false) = { stdout := "", stderr := "", exit_code := 0 } :=
  ⟨rfl, rfl⟩

/-- Counterexample to claim C4: the claim says a short or long flag token
with no following value token fails with
"missing value for argument: ...", and that a long flag only takes a value
token that does not itself start with `--` or `-<alpha>`.  The re-split of
`_execute_command` does neither: a trailing `-x` is appended as a
positional token without error, and `--name` takes an immediately
following `--other` as its value. -/
theorem split_args_counterexample :
    splitArgs ["-x"] = (["-x"], []) ∧
    splitArgs ["--name", "--other"] = ([], [("name", "--other")]) :=
  ⟨rfl, rfl⟩

/-- Claim C4 as amended: after the command name, `--<name>` followed by any
token at all takes that token as its value (regardless of the value's
shape); `-<single alphabetic char>` followed by a token takes that token
as its value; a flag token with no following token is appended to the
positional arguments, and no error is raised. -/
theorem split_args_amended (args : List String)
    (kwargs : List (String × String)) (arg v : String) (rest : List String) :
    (pyStartsWith arg "-" = true →
      splitArgsGo args kwargs [arg] = (args ++ [arg], kwargs)) ∧
    (pyStartsWith arg "--" = true →
      splitArgsGo args kwargs (arg :: v :: rest) =
        splitArgsGo args (dictInsert kwargs (pyDrop arg 2) v) rest) ∧
    (pyStartsWith arg "--" = false → isShortFlagToken arg = true →
      splitArgsGo args kwargs (arg :: v :: rest) =
        splitArgsGo args (dictInsert kwargs (pyDrop arg 1) v) rest) := by
  refine ⟨fun _ => ?_, fun h => ?_, fun h h2 => ?_⟩
  · by_cases hs : isShortFlagToken arg <;> simp [splitArgsGo, hs]
  · simp [splitArgsGo, h]
  · simp [splitArgsGo, h, h2]

/-- Witness for the amended claim C4 at concrete inputs: a trailing short
flag is positional, a long flag consumes a dashed value token, a short
flag consumes its value token. -/
theorem split_args_amended_witness :
    splitArgsGo [] [] ["-x"] = (["-x"], []) ∧
    splitArgsGo [] [] ["--name", "-z", "q"] =
      splitArgsGo [] (dictInsert [] "name" "-z") ["q"] ∧
    splitArgsGo [] [] ["-x", "7"] = splitArgsGo [] (dictInsert [] "x" "7") [] :=
  ⟨(split_args_amended [] [] "-x" "" []).1 (by decide),
   (split_args_amended [] [] "--name" "-z" ["q"]).2.1 (by decide),
   (split_args_amended [] [] "-x" "7" []).2.2 (by decide) (by decide)⟩

/-- Counterexample to claim C8: the claim says every registration whose
name collides with an already-registered command raises.
`register_command` returns before the collision check when the command's
availability predicate is false, so registering an unavailable command
under an already-taken name raises nothing (and changes nothing). -/
theorem register_unavailable_collision_no_raise :
    registerCommand [("foo", ⟨"foo", true⟩)] ⟨"foo", false⟩ =
      (none, [("foo", ⟨"foo", true⟩)]) :=
  rfl

/-- Claim C8 as amended: for every registration of an available command
whose name equals an already-registered command's name, registration
raises `ValueError` and leaves the registered-command mapping unchanged
(an unavailable command is skipped silently before the collision check). -/
theorem register_collision_raises (cmds : List (String × RegCommand))
    (c : RegCommand) (h1 : c.available = true)
    (h2 : (cmds.lookup c.name).isSome = true) :
    registerCommand cmds c =
      (some ("Command \x27" ++ c.name ++ "\x27 already registered"), cmds) := by
  simp [registerCommand, h1, h2]

/-- Witness for the amended claim C8: registering an available `foo` in a
store that already holds `foo` raises and leaves the mapping unchanged. -/
theorem register_collision_raises_witness :
    registerCommand [("foo", ⟨"foo", true⟩)] ⟨"foo", true⟩ =
      (some ("Command \x27foo\x27 already registered"),
       [("foo", ⟨"foo", true⟩)]) :=
  register_collision_raises [("foo", ⟨"foo", true⟩)] ⟨"foo", true⟩ rfl rfl

/-- Claim C6: a shell command node whose command name is not in the store
evaluates to a `CommandResult` with exit code exactly 127 and stderr
"Unknown command: " followed by the name, and no handler is invoked (the
invocation trace is empty). -/
theorem unknown_command_127 (store : ExecStore O D S M)
    (parts : List WordPart) (ctx : CommandContext O D S M) (name : String)
    (rawArgs : List String) (h1 : wordsOf parts = name :: rawArgs)
    (h2 : store name = none) :
    executeCommandNode store parts ctx =
      ({ stderr := "Unknown command: " ++ name, exit_code := 127 }, []) := by
  simp [executeCommandNode, h1, h2]

/-- Witness for claim C6: the unregistered name `zap`. -/
theorem unknown_command_127_witness :
    executeCommandNode demoStore [WordPart.word "zap"] demoCtx =
      ({ stderr := "Unknown command: zap", exit_code := 127 }, []) :=
  unknown_command_127 demoStore [WordPart.word "zap"] demoCtx "zap" [] rfl rfl

/-- Counterexample to claim C3: the claim says shell-mode execution
propagates the exit-requested error (`ExitCommandError`) unchanged and
never converts it into a `CommandResult` with a nonzero exit code.  But
`ShellExecutor._execute_command` has no special case for it: its
`except CommandError` clause catches the subclass and converts it into
`CommandResult(stderr=str(e), exit_code=1)`, as the handler `bye` (which
raises `ExitCommandError("bye now")`) shows. -/
theorem exit_error_converted_in_shell_mode :
    executeCommandNode demoStore [WordPart.word "bye"] demoCtx =
      ({ stderr := "bye now", exit_code := 1 }, [⟨"bye", [], [], "seed"⟩]) :=
  rfl

/-- Claim C3 as amended: direct execution (`CommandStore.execute_command`)
re-raises `ExitCommandError` unchanged — it is never wrapped into the
generic "Command execution failed" error — while shell-mode execution
catches it like any `CommandError` and converts it into
`CommandResult(stderr=str(e), exit_code=1)`. -/
theorem exit_error_policy (store : ExecStore O D S M)
    (parts : List WordPart) (ctx : CommandContext O D S M) (name : String)
    (rawArgs : List String) (handler : Handler O D S M) (msg : String)
    (h1 : wordsOf parts = name :: rawArgs)
    (h2 : store name = some handler)
    (h3 : handler ctx (splitArgs rawArgs).1 (splitArgs rawArgs).2 =
      .error (.exitCommandError msg)) :
    storeExecuteCatch (.error (.exitCommandError msg)) =
      .error (.exitCommandError msg) ∧
    executeCommandNode store parts ctx =
      ({ stderr := msg, exit_code := 1 },
       [⟨name, (splitArgs rawArgs).1, (splitArgs rawArgs).2, ctx.stdin⟩]) := by
  constructor
  · rfl
  · simp [executeCommandNode, h1, h2, h3, SlashedError.isCommandError,
      SlashedError.message]

/-- Witness for the amended claim C3: the `bye` handler of the demo
store. -/
theorem exit_error_policy_witness :
    storeExecuteCatch (.error (.exitCommandError "bye now")) =
      .error (.exitCommandError "bye now") ∧
    executeCommandNode demoStore [WordPart.word "bye"] demoCtx =
      ({ stderr := "bye now", exit_code := 1 }, [⟨"bye", [], [], "seed"⟩]) :=
  exit_error_policy demoStore [WordPart.word "bye"] demoCtx "bye" []
    (fun _ _ _ => .error (.exitCommandError "bye now")) "bye now" rfl rfl rfl

theorem executePipelineGo_eq_stages (store : ExecStore O D S M)
    (ctx : CommandContext O D S M) :
    ∀ (cmds : List (List WordPart)) (stdin : String), cmds ≠ [] →
      executePipelineGo store ctx cmds stdin =
        (lastStage (stageResults store ctx cmds stdin),
         ((stageResults store ctx cmds stdin).map Prod.snd).flatten)
  | [], _, h => absurd rfl h
  | [c], stdin, _ => by
    simp [executePipelineGo, stageResults, lastStage]
  | c :: c2 :: rest, stdin, _ => by
    have ih := executePipelineGo_eq_stages store ctx (c2 :: rest)
      (executeCommandNode store c (replaceStdin ctx stdin)).1.stdout
      (by simp)
    simp only [executePipelineGo, ih]
    simp [stageResults, lastStage]

/-- Claim C2: a pipeline node with at least one command stage evaluates its
stages left to right; stage 1 runs with the incoming context's `stdin`,
each later stage runs with the immediately preceding stage's `stdout` as
`stdin` (that is what `stageResults` computes), and the pipeline's result
is exactly the last stage's result — intermediate stdout is discarded and
only the last stage's stderr and exit code appear.  The trace is the
stages' handler invocations in order. -/
theorem pipeline_is_last_stage (store : ExecStore O D S M)
    (parts : List PipePart) (ctx : CommandContext O D S M)
    (h : pipeCommands parts ≠ []) :
    executePipelineNode store parts ctx =
      (lastStage (stageResults store ctx (pipeCommands parts) ctx.stdin),
       ((stageResults store ctx (pipeCommands parts) ctx.stdin).map
         Prod.snd).flatten) := by
  have h2 := executePipelineGo_eq_stages store ctx (pipeCommands parts)
    ctx.stdin h
  unfold executePipelineNode
  cases hc : pipeCommands parts with
  | nil => exact absurd hc h
  | cons c rest =>
    rw [hc] at h2
    exact h2

/-- Witness for claim C2: `echo hi | cat` over the demo store. -/
theorem pipeline_is_last_stage_witness :
    executePipelineNode demoStore
      [PipePart.command [WordPart.word "echo", WordPart.word "hi"],
       PipePart.otherKind, PipePart.command [WordPart.word "cat"]] demoCtx =
      (lastStage (stageResults demoStore demoCtx
        (pipeCommands
          [PipePart.command [WordPart.word "echo", WordPart.word "hi"],
           PipePart.otherKind, PipePart.command [WordPart.word "cat"]])
        demoCtx.stdin),
       ((stageResults demoStore demoCtx
        (pipeCommands
          [PipePart.command [WordPart.word "echo", WordPart.word "hi"],
           PipePart.otherKind, PipePart.command [WordPart.word "cat"]])
        demoCtx.stdin).map Prod.snd).flatten) :=
  pipeline_is_last_stage demoStore
    [PipePart.command [WordPart.word "echo", WordPart.word "hi"],
     PipePart.otherKind, PipePart.command [WordPart.word "cat"]] demoCtx
    (by decide)

/-- Claim C9: each pipeline stage runs on `replace(ctx, stdin=...)`, a
shallow copy of the pipeline's incoming context in which only `stdin` is
replaced — its `output`, `data`, `command_store` and `metadata` fields are
the original's (reference sharing is field equality in this embedding) —
and the pipeline reads nothing else from the incoming context: its loop
gives the same outcome for any two incoming contexts that share those four
fields, whatever their own `stdin` fields hold.  The incoming context
itself is a value here, so the execution leaves it unchanged by
construction. -/
theorem pipeline_stage_ctx_shallow_copy (store : ExecStore O D S M)
    (ctx : CommandContext O D S M) :
    (∀ s : String,
      (replaceStdin ctx s).output = ctx.output ∧
      (replaceStdin ctx s).data = ctx.data ∧
      (replaceStdin ctx s).command_store = ctx.command_store ∧
      (replaceStdin ctx s).metadata = ctx.metadata ∧
      (replaceStdin ctx s).stdin = s) ∧
    (∀ (s0 stdin : String) (cmds : List (List WordPart)),
      executePipelineGo store (replaceStdin ctx s0) cmds stdin =
        executePipelineGo store ctx cmds stdin) := by
  constructor
  · exact fun s => ⟨rfl, rfl, rfl, rfl, rfl⟩
  · intro s0 stdin cmds
    induction cmds generalizing stdin with
    | nil => rfl
    | cons c rest ih =>
      cases rest with
      | nil => rfl
      | cons c2 rest2 =>
        simp only [executePipelineGo]
        rw [show replaceStdin (replaceStdin ctx s0) stdin =
          replaceStdin ctx stdin from rfl, ih]

theorem pendingAllowed_some {op : String}
    (h : pendingAllowed (some op) = true) : op = "&&" ∨ op = "||" ∨ op = ";" := by
  simpa [pendingAllowed, or_assoc] using h

/-- Under the three spec operators, the executor's `should_execute`
condition coincides with the claim's execution condition. -/
theorem should_run_eq (pendingOp : Option String) (r : CommandResult)
    (h : pendingAllowed pendingOp = true) :
    listShouldRun pendingOp r = claimExecutes pendingOp r.exit_code := by
  cases pendingOp with
  | none => simp [listShouldRun, claimExecutes]
  | some op =>
    rcases pendingAllowed_some h with h | h | h <;> subst h <;>
      simp [listShouldRun, claimExecutes]

theorem join_snoc (acc : List String) (s : String) :
    String.join (if s = "" then acc else acc ++ [s]) = String.join acc ++ s := by
  by_cases h : s = ""
  · simp [h, str_append_empty]
  · simp [h, str_join_append, str_join_cons, str_join_nil, str_append_empty]

theorem listGo_spec (store : ExecStore O D S M) (ctx : CommandContext O D S M) :
    ∀ (parts : List ListPart) (pendingOp : Option String) (r : CommandResult)
      (accOut accErr : List String) (tr : List Invocation),
      parts.all opAllowed = true → pendingAllowed pendingOp = true →
      executeListGo store ctx parts pendingOp r accOut accErr tr =
        ( { stdout := String.join accOut ++ String.join
              ((executedResults store ctx parts pendingOp r.exit_code).map
                fun p => p.1.stdout),
            stderr := String.join accErr ++ String.join
              ((executedResults store ctx parts pendingOp r.exit_code).map
                fun p => p.1.stderr),
            exit_code :=
              lastExit (executedResults store ctx parts pendingOp r.exit_code)
                r.exit_code },
          tr ++ ((executedResults store ctx parts pendingOp r.exit_code).map
            fun p => p.2).flatten ) := by
  intro parts
  induction parts with
  | nil =>
    intro pendingOp r accOut accErr tr _ _
    simp [executeListGo, executedResults, lastExit, str_append_empty,
      str_join_nil]
  | cons part rest ih =>
    intro pendingOp r accOut accErr tr hall hpend
    simp only [List.all_cons, Bool.and_eq_true] at hall
    cases part with
    | operator op =>
      simp only [executeListGo, executedResults]
      exact ih (some op) r accOut accErr tr hall.2 hall.1
    | command ws =>
      simp only [executeListGo, executedResults,
        should_run_eq pendingOp r hpend]
      by_cases hex : claimExecutes pendingOp r.exit_code
      · simp only [hex, if_true]
        rw [ih none (executeCommandNode store ws ctx).1 _ _ _ hall.2 rfl]
        simp [join_snoc, str_append_assoc, str_join_cons, lastExit]
      · simp only [hex, if_false, Bool.false_eq_true]
        exact ih none r accOut accErr tr hall.2 rfl
    | pipeline ps =>
      simp only [executeListGo, executedResults,
        should_run_eq pendingOp r hpend]
      by_cases hex : claimExecutes pendingOp r.exit_code
      · simp only [hex, if_true]
        rw [ih none (executePipelineNode store ps ctx).1 _ _ _ hall.2 rfl]
        simp [join_snoc, str_append_assoc, str_join_cons, lastExit]
      · simp only [hex, if_false, Bool.false_eq_true]
        exact ih none r accOut accErr tr hall.2 rfl
    | otherKind =>
      simp only [executeListGo, executedResults]
      exact ih pendingOp r accOut accErr tr hall.2 hpend

/-- Claim C1: over a list node whose operators are `&&`, `||`, `;`, a part
executes exactly when the pending operator is `&&` and the previous exit
code is 0, or `||` and the previous exit code is nonzero, or `;` or absent
(that is what `executedResults` computes with `claimExecutes`); the
result's stdout and stderr are the concatenations, in execution order, of
every executed part's stdout and stderr, its exit code is the last
EXECUTED part's, and the handler trace is the executed parts' traces in
order (`claimedListResult`). -/
theorem list_matches_claim (store : ExecStore O D S M)
    (ctx : CommandContext O D S M) (parts : List ListPart)
    (h : parts.all opAllowed = true) :
    executeListNode store parts ctx = claimedListResult store ctx parts := by
  unfold executeListNode claimedListResult
  rw [listGo_spec store ctx parts none {} [] [] [] h rfl]
  simp [str_empty_append, str_join_nil]

/-- Witness for claim C1: `false && echo x ; echo z` over the demo store
(the `echo x` part is skipped, `echo z` runs). -/
theorem list_matches_claim_witness :
    executeListNode demoStore
      [ListPart.command [WordPart.word "false"], ListPart.operator "&&",
       ListPart.command [WordPart.word "echo", WordPart.word "x"],
       ListPart.operator ";",
       ListPart.command [WordPart.word "echo", WordPart.word "z"]] demoCtx =
      claimedListResult demoStore demoCtx
        [ListPart.command [WordPart.word "false"], ListPart.operator "&&",
         ListPart.command [WordPart.word "echo", WordPart.word "x"],
         ListPart.operator ";",
         ListPart.command [WordPart.word "echo", WordPart.word "z"]] :=
  list_matches_claim demoStore demoCtx
    [ListPart.command [WordPart.word "false"], ListPart.operator "&&",
     ListPart.command [WordPart.word "echo", WordPart.word "x"],
     ListPart.operator ";",
     ListPart.command [WordPart.word "echo", WordPart.word "z"]]
    (by decide)

theorem coerceAll_untyped (l : List String) :
    coerceAll .untyped l = Except.ok (l.map BoundVal.vstr) := by
  induction l with
  | nil => rfl
  | cons a t ih => rw [coerceAll, ih]; rfl

/-- Claim C7: for a handler `(*nodes, name)` — a var-positional parameter
followed by a keyword-only parameter — `parse_args` with any positional
tokens and a keyword value for `name` raises no positional/keyword
conflict: keyword-only parameters are exempt from the conflict check
against positional data, all positional tokens land in the var-positional
slot, and the keyword-only value appears in the keyword output. -/
theorem var_positional_no_conflict_with_keyword_only (ps : List String)
    (v : String) :
    parse_args
      ⟨false,
       [⟨"nodes", .varPositional, .untyped, false, .vstr "", none⟩,
        ⟨"name", .keywordOnly, .untyped, false, .vstr "", none⟩]⟩
      ps [("name", v)] =
      .ok (ps.map .vstr, [("name", .vstr v)]) := by
  simp [parse_args, shorthandResolve, bindNormals, bindKwOnly, coerceValue,
    coerceAll_untyped, List.lookup]

end Slashed
